import Mathlib

/-!
Verification development for `manual/tools/parse_doxygen_xml.py`, the script
that converts doxygen-generated XML into LaTeX fragments for the seL4 manual.

The development shallowly embeds the concrete configuration actually run by
the script's `main`: the `LatexGenerator` subclass of `Generator` (the only
generator that is instantiated).  Python strings are Lean `String`s, the
parsed BeautifulSoup tree is the inductive `Node` below, Python dicts keyed
by strings are insertion-ordered association lists with overwrite-on-update
(`dictInsert`), and a Python exception anywhere in a computation is modelled
by `Option` (`none` = the call raises and the error propagates, nothing in
the script catches exceptions).  The recursive paragraph renderer
`parse_para` is embedded with an explicit fuel parameter (the `fuel = 0`
case returns `none`); every claim about it is stated for arbitrary
sufficient fuel.
-/

/-- A node of the parsed XML tree.  `text` is a bare text node
(BeautifulSoup `NavigableString`, whose `name` is `None`); `elem` is a tag
with a name, an attribute mapping and an ordered list of children. -/
inductive Node where
  | text (s : String)
  | elem (nm : String) (attrs : List (String × String)) (children : List Node)

/-- The tag name of a node: `none` for a text node (`soup.name is None`). -/
def Node.nameOf : Node → Option String
  | .text _ => none
  | .elem nm _ _ => some nm

/-- The ordered children of a node (`soup.contents`). -/
def Node.children : Node → List Node
  | .text _ => []
  | .elem _ _ cs => cs

/-- Attribute lookup `soup[key]`: `none` models the `KeyError` (or the
`TypeError` on a text node) that the script never catches. -/
def Node.attr (n : Node) (key : String) : Option String :=
  match n with
  | .text _ => none
  | .elem _ attrs _ => (attrs.find? (fun p => p.1 == key)).map (fun p => p.2)

mutual
/-- All descendants of a node in document (pre-)order, excluding the node
itself: the search space of BeautifulSoup's recursive `find_all`. -/
def Node.descendants : Node → List Node
  | .text _ => []
  | .elem _ _ cs => Node.descendantsL cs
/-- Descendant list of a forest: each root followed by its own descendants. -/
def Node.descendantsL : List Node → List Node
  | [] => []
  | c :: cs => c :: (Node.descendants c ++ Node.descendantsL cs)
end

/-- Does an element carry the given tag name (text nodes never match)? -/
def hasName (tag : String) : Node → Bool
  | .text _ => false
  | .elem nm _ _ => nm == tag

/-- `soup.find_all(tag)`: every descendant element with the tag, in
document order. -/
def Node.findAll (n : Node) (tag : String) : List Node :=
  n.descendants.filter (hasName tag)

/-- `soup.find(tag)`: first matching descendant, `none` when absent. -/
def Node.find (n : Node) (tag : String) : Option Node :=
  (n.findAll tag).head?

/-- `soup.find_all(tag, recursive=False)`: matching direct children only. -/
def Node.findAllDirect (n : Node) (tag : String) : List Node :=
  n.children.filter (hasName tag)

mutual
/-- `soup.get_text()`: concatenation of all descendant text nodes. -/
def Node.getText : Node → String
  | .text s => s
  | .elem _ _ cs => Node.getTextL cs
/-- Concatenated text of a forest, in order. -/
def Node.getTextL : List Node → String
  | [] => ""
  | c :: cs => Node.getText c ++ Node.getTextL cs
end

/-- BeautifulSoup `soup.string`: a text node is its own string; a tag with
exactly one child defers to that child; anything else has no string. -/
def Node.stringOf : Node → Option String
  | .text s => some s
  | .elem _ _ [c] => c.stringOf
  | .elem _ _ _ => none

/-- Python dict membership `k in d` for a string-keyed dict modelled as an
insertion-ordered association list with distinct keys. -/
def dictContains (d : List (String × α)) (k : String) : Bool :=
  d.any (fun p => p.1 == k)

/-- Python dict lookup `d[k]`, with `none` modelling the `KeyError`. -/
def dictGet? (d : List (String × α)) (k : String) : Option α :=
  (d.find? (fun p => p.1 == k)).map (fun p => p.2)

/-- Python dict update `d[k] = v`: overwrite in place when the key exists
(keeping its position), otherwise append a new binding. -/
def dictInsert (d : List (String × α)) (k : String) (v : α) : List (String × α) :=
  if dictContains d k then d.map (fun p => if p.1 == k then (k, v) else p)
  else d ++ [(k, v)]

/-- Whitespace test used to model Python's `str.split()` and `str.strip()`
(a character-class approximation of Python's whitespace set). -/
def isWS (c : Char) : Bool := c.isWhitespace

/-- Helper for `pysplit`: scan the characters, accumulating the current
word reversed, emitting a word at each whitespace run boundary. -/
def splitWS : List Char → List Char → List String
  | [], acc => if acc.isEmpty then [] else [String.mk acc.reverse]
  | c :: cs, acc =>
    if isWS c then
      (if acc.isEmpty then [] else [String.mk acc.reverse]) ++ splitWS cs []
    else splitWS cs (c :: acc)

/-- Python `s.split()` (no argument): split on whitespace runs, never
producing empty components. -/
def pysplit (s : String) : List String := splitWS s.data []

/-- Python `s.strip()`: drop leading and trailing whitespace. -/
def pystrip (s : String) : String :=
  String.mk (((s.data.dropWhile isWS).reverse.dropWhile isWS).reverse)

/-- Python `sep.join(xs)`. -/
def pyjoin (sep : String) : List String → String
  | [] => ""
  | [s] => s
  | s :: rest => s ++ sep ++ pyjoin sep rest

/-- One character of `LatexGenerator.text_escape`: the regex built from
`ESCAPE_PATTERNS = { "_" : "\\_" }` rewrites each underscore to the
two-character sequence backslash-underscore and leaves every other
character alone. -/
def escapeChar (c : Char) : List Char := if c = '_' then ['\\', '_'] else [c]

/-- `LatexGenerator.text_escape`: substitute every occurrence of a reserved
character (here only the underscore) by its escape sequence. -/
def text_escape (s : String) : String := String.mk (s.data.flatMap escapeChar)

/-- `Generator.get_text(soup, escape)`: a plain string argument is used
directly (that case is inlined at the call sites below); for a tag, use
`soup.string` when it is truthy (non-`None` and non-empty), otherwise fall
back to `soup.get_text()`; finally escape if requested. -/
def get_text (soup : Node) (esc : Bool) : String :=
  let s :=
    match soup with
    | .text str => str
    | _ =>
      match soup.stringOf with
      | some str => if str == "" then soup.getText else str
      | none => soup.getText
  if esc then text_escape s else s

/-- `LatexGenerator.todo_if_empty`: keep a truthy (non-empty) string,
replace an empty one by the literal to-do marker. -/
def todo_if_empty (s : String) : String := if s == "" then "\\todo" else s

/-- `LatexGenerator.default_return_doc`: the return documentation implied
by the return type alone. -/
def default_return_doc (ret_type : String) : String :=
  if ret_type == "void" then "\\noret" else ""

/-- The resolved reference descriptor stored in the reference dict by
`Generator.build_ref_dict`: escaped display name, manual label, id. -/
structure RefData where
  name : String
  label : String
  ref : String
deriving DecidableEq

/-- The reference dict built by `build_ref_dict`. -/
abbrev RefDict := List (String × RefData)

/-- `LatexGenerator.ref_format`: look up `refid` (`none` models the
uncaught `KeyError`) and emit the `apifunc` cross-reference macro. -/
def ref_format (refid : String) (ref_dict : RefDict) : Option String :=
  (dictGet? ref_dict refid).map (fun r =>
    "\\apifunc\x7b" ++ r.name ++ "\x7d\x7b" ++ r.label ++ "\x7d")

/-- `LatexGenerator.parse_para` (with the parse table of
`LatexGenerator.get_parse_table`, which overrides entries of
`Generator.get_parse_table`), fuelled.  A text node renders as its escaped
text; each known tag renders per its table entry; any unknown tag renders
as the empty string.  `ref_to_format` and `nref_to_format` are inlined in
the `ref` and `nameref` arms: with an empty reference dict they return the
empty string without touching the node's attributes. -/
def parse_para (ref_dict : RefDict) : Nat → Node → Option String
  | 0, _ => none
  | fuel+1, node =>
    let renderChildren : List Node → Option String := fun cs =>
      cs.foldlM (fun acc c => do
        let s ← parse_para ref_dict fuel c
        pure (acc ++ s)) ""
    match node with
    | .text s => some (text_escape s)
    | .elem nm _ _ =>
      if nm == "para" then renderChildren node.children
      else if nm == "computeroutput" then
        some ("\\texttt\x7b" ++ get_text node true ++ "\x7d")
      else if nm == "texttt" then do
        let t ← node.attr "text"
        pure ("\\texttt\x7b" ++ text_escape t ++ "\x7d")
      else if nm == "ref" then
        if 0 < ref_dict.length then do
          let rid ← node.attr "refid"
          ref_format rid ref_dict
        else some ""
      else if nm == "nameref" then
        if 0 < ref_dict.length then do
          let nref ← node.attr "name"
          ref_format nref ref_dict
        else some ""
      else if nm == "shortref" then do
        let sec ← node.attr "sec"
        pure ("\\ref\x7bsec:" ++ sec ++ "\x7d")
      else if nm == "obj" then do
        let objName ← node.attr "name"
        pure ("\\obj\x7b" ++ objName ++ "\x7d")
      else if nm == "errorenumdesc" then some "\\errorenumdesc"
      else if nm == "orderedlist" then do
        let body ← renderChildren node.children
        pure ("\\begin\x7benumerate\x7d\n" ++ body ++ "\\end\x7benumerate\x7d\n")
      else if nm == "itemizedlist" then do
        let body ← renderChildren node.children
        pure ("\\begin\x7bitemize\x7d\n" ++ body ++ "\\end\x7bitemize\x7d\n")
      else if nm == "listitem" then do
        let p ← node.find "para"
        let s ← parse_para ref_dict fuel p
        pure ("\\item " ++ s ++ "\n")
      else if nm == "autoref" then do
        let lbl ← node.attr "label"
        pure ("\\autoref\x7b" ++ lbl ++ "\x7d")
      else some ""

/-- `Generator.parse_brief`: render every `para` under `briefdescription`
(with the default, empty reference dict) and join with blank lines. -/
def parse_brief (fuel : Nat) (parent : Node) : Option String := do
  let bd ← parent.find "briefdescription"
  let rendered ← (bd.findAll "para").mapM (fun n => parse_para [] fuel n)
  pure (pyjoin "\n\n" rendered)

/-- Parameter info dict value built by `parse_detailed_desc`: the declared
type, and the documented description once attached. -/
structure PInfo where
  type : String
  desc : Option String
deriving DecidableEq

/-- The declaration-pairing loop of `Generator.parse_detailed_desc`: walk
the `declname` nodes, consuming one `type` node each (the caller has
already consumed the leading return type); `none` models the uncaught
`StopIteration` when the types run out; a pair whose type text is "void"
is skipped entirely; otherwise record the parameter in the dict and
append its name to the order list. -/
def paramLoop : List Node → List Node → List (String × PInfo) → List String →
    Option (List (String × PInfo) × List String)
  | _, [], params, param_order => some (params, param_order)
  | [], _ :: _, _, _ => none
  | t :: ts, n :: ns, params, param_order =>
    let param_type := t.getText
    if param_type == "void" then paramLoop ts ns params param_order
    else paramLoop ts ns (dictInsert params n.getText ⟨param_type, none⟩)
      (param_order ++ [n.getText])

/-- The `parameteritem` loop of `parse_detailed_desc`: for each documented
parameter, find its name and description nodes, render the description,
then store it under the declared parameter's entry — `none` models the
uncaught `KeyError` when the documented name is not a declared name, and
the uncaught attribute errors when the sub-nodes are missing. -/
def attachDescs (fuel : Nat) (ref_dict : RefDict) :
    List Node → List (String × PInfo) → Option (List (String × PInfo))
  | [], params => some params
  | item :: rest, params => do
    let pname_node ← item.find "parametername"
    let pdesc_node ← item.find "parameterdescription"
    let param_name := get_text pname_node false
    let ppara ← pdesc_node.find "para"
    let param_desc ← parse_para ref_dict fuel ppara
    if dictContains params param_name then
      attachDescs fuel ref_dict rest
        (params.map (fun p =>
          if p.1 == param_name then (p.1, ⟨p.2.type, some param_desc⟩) else p))
    else none

/-- `LatexGenerator.generate_param_string`: one `param` block, escaping
the stored type and name, substituting the to-do marker for a missing or
blank description. -/
def generate_param_string (param_info : PInfo) (param_name : String) : String :=
  "\\param\x7b" ++ text_escape param_info.type ++ "\x7d\x7b" ++ text_escape param_name ++
    "\x7d\x7b" ++ todo_if_empty (pystrip (param_info.desc.getD "")) ++ "\x7d\n"

/-- `LatexGenerator.generate_empty_param_string`: the canonical block for
a parameterless function. -/
def generate_empty_param_string : String := "\\param\x7bvoid\x7d\x7b\x7d\x7b\x7d"

/-- The `params_str` accumulation loop of `parse_detailed_desc`: one
`param` block per recorded parameter name, in declaration order, looking
each name up in the parameter dict. -/
def buildParamsStr (params : List (String × PInfo)) : List String → String → Option String
  | [], acc => some acc
  | n :: ns, acc => do
    let info ← dictGet? params n
    buildParamsStr params ns (acc ++ generate_param_string info n)

/-- The `details` accumulation loop of `parse_detailed_desc`: render each
top-level `para` of the detailed description that does not contain a
`parameterlist`, separating with blank lines. -/
def detailsLoop (fuel : Nat) (ref_dict : RefDict) : List Node → String → Option String
  | [], acc => some acc
  | n :: ns, acc =>
    if (n.find "parameterlist").isSome then detailsLoop fuel ref_dict ns acc
    else do
      let s ← parse_para ref_dict fuel n
      detailsLoop fuel ref_dict ns (acc ++ s ++ "\n\n")

/-- The `simplesect` scan of `parse_detailed_desc`: the first section
whose `kind` attribute is "return" replaces the default return doc with
the rendering of its `para` child and stops the scan; sections of other
kinds are skipped; a section without a `kind` attribute is an uncaught
`KeyError`. -/
def retScan (fuel : Nat) (ref_dict : RefDict) : List Node → String → Option String
  | [], acc => some acc
  | n :: ns, acc => do
    let kind ← n.attr "kind"
    if kind == "return" then do
      let p ← n.find "para"
      parse_para ref_dict fuel p
    else retScan fuel ref_dict ns acc

/-- `Generator.parse_detailed_desc` (with the LaTeX generator's overrides):
extract the parameter list, the free-text details, and the return-value
documentation of one member, as the triple `(details, params_str, ret)`
it returns. -/
def parse_detailed_desc (fuel : Nat) (parent : Node) (ref_dict : RefDict) :
    Option (String × String × String) := do
  let types := parent.findAll "type"
  let names := parent.findAll "declname"
  let ret_type ← types.head?
  let (params0, param_order) ← paramLoop (types.drop 1) names [] []
  let params ← attachDescs fuel ref_dict (parent.findAll "parameteritem") params0
  let params_str ←
    if params.length == 0 then pure generate_empty_param_string
    else buildParamsStr params param_order ""
  let ddesc ← parent.find "detaileddescription"
  let details ← detailsLoop fuel ref_dict (ddesc.findAllDirect "para") ""
  let ret_str := get_text ret_type false
  let lastTok ← (pysplit ret_str).getLast?
  let ret ← retScan fuel ref_dict (parent.findAll "simplesect") (default_return_doc lastTok)
  pure (todo_if_empty (pystrip details), params_str, todo_if_empty (pystrip ret))

/-- `Generator.parse_prototype`: the member's return type and name, with
the conditional "inline " and "static " prefixes exactly as the source
applies them (the "inline " prefix is prepended first, then "static "
in front of it when the static flag is affirmative). -/
def parse_prototype (parent : Node) : Option String := do
  let inlineAttr ← parent.attr "inline"
  let staticAttr ← parent.attr "static"
  let typeNode ← parent.find "type"
  let nameNode ← parent.find "name"
  let ret_type := get_text typeNode true
  let nm := get_text nameNode true
  let output := ret_type ++ " " ++ nm
  let output := if inlineAttr == "yes" then "inline " ++ output else output
  let output := if staticAttr == "yes" then "static " ++ output else output
  pure output

/-- One iteration of `Generator.build_ref_dict`: the member's display name
(`str(member.find('name').string)`, which is the literal string "None"
when the name tag has no unique string), its manual label and its id,
together with the stored descriptor (whose name field is escaped). -/
def memberEntry (member : Node) : Option (String × String × RefData) := do
  let nameNode ← member.find "name"
  let nm := match nameNode.stringOf with
    | some s => s
    | none => "None"
  let manualNode ← member.find "manual"
  let label ← manualNode.attr "label"
  let ref_id ← member.attr "id"
  pure (ref_id, nm, ⟨text_escape nm, label, ref_id⟩)

/-- `Generator.build_ref_dict`: insert each member's descriptor under its
id key and then under its raw display-name key. -/
def build_ref_dict (soup : Node) : Option RefDict :=
  (soup.findAll "memberdef").foldlM (fun ret member => do
    let (ref_id, nm, data) ← memberEntry member
    pure (dictInsert (dictInsert ret ref_id data) nm data)) []

/-- The fold of `build_ref_dict` over already-extracted member entries. -/
def buildFold (entries : List (String × String × RefData)) (acc : RefDict) : RefDict :=
  entries.foldl (fun ret e => dictInsert (dictInsert ret e.1 e.2.2) e.2.1 e.2.2) acc

/-- The (id, name, descriptor) triples read by `build_ref_dict` from a
member list, `none` when any member is missing a required field. -/
def entriesOf : List Node → Option (List (String × String × RefData))
  | [] => some []
  | m :: ms => do
    let e ← memberEntry m
    let rest ← entriesOf ms
    pure (e :: rest)

/-- `LatexGenerator.generate_api_doc`: the fixed `apidoc` template, filled
with the heading level, the manual label and escaped manual name, the
brief description (to-do if blank), the prototype, and the already
rendered parameter, return and details strings. -/
def generate_api_doc (fuel : Nat) (level : String) (member : Node)
    (params ret details : String) : Option String := do
  let manual_node ← member.find "manual"
  let label ← manual_node.attr "label"
  let nm ← manual_node.attr "name"
  let brief ← parse_brief fuel member
  let proto ← parse_prototype member
  pure ("\n\\apidoc\n[\x7b" ++ level ++ "\x7d]\n\x7b" ++ label ++ "\x7d\n\x7b" ++
    text_escape nm ++ "\x7d\n\x7b" ++ todo_if_empty brief ++ "\x7d\n\x7b" ++ proto ++
    "\x7d\n\x7b" ++ params ++ "\x7d\n\x7b" ++ ret ++ "\x7d\n\x7b" ++ details ++
    "\x7d\n        ")

/-- The top-level description loop of `generate_general_syscall_doc`:
for each direct `detaileddescription` child of the `compounddef`, if it
has a `para` descendant, render it with the default (empty) reference
dict and append. -/
def parseTopLevelDescs (fuel : Nat) (summary : Node) : Option String :=
  (summary.findAllDirect "detaileddescription").foldlM (fun acc d =>
    match d.find "para" with
    | some p => do
      let s ← parse_para [] fuel p
      pure (acc ++ s)
    | none => pure acc) ""

/-- `generate_general_syscall_doc` (file handling elided: the function is
given the parsed tree): build the reference dict, render the top-level
descriptions, then either return the literal "No methods." when there are
no members, or append each member's `apidoc` block. -/
def generate_general_syscall_doc (fuel : Nat) (soup : Node) (level : String) :
    Option String := do
  let ref_dict ← build_ref_dict soup
  let elements := soup.findAll "memberdef"
  let summary ← soup.find "compounddef"
  let output ← parseTopLevelDescs fuel summary
  if elements.length == 0 then
    pure "No methods."
  else
    elements.foldlM (fun acc member => do
      let (details, params, ret) ← parse_detailed_desc fuel member ref_dict
      let block ← generate_api_doc fuel level member params ret details
      pure (acc ++ block)) output

/-- Concatenation of a list of strings in order (the repeated `+=` of the
source's accumulation loops). -/
def concatAll : List String → String
  | [] => ""
  | s :: rest => s ++ concatAll rest

/-- Schematic member whose inline and static flags and whose type and name
text are arbitrary: the exact shape `parse_prototype` reads. -/
def protoMember (i s t nm : String) : Node :=
  .elem "memberdef" [("inline", i), ("static", s)]
    [.elem "type" [] [.text t], .elem "name" [] [.text nm]]

/-- Schematic member with only a return type and an empty detailed
description: the minimal member shape accepted by `parse_detailed_desc`. -/
def retOnlyMember (rt : String) : Node :=
  .elem "memberdef" []
    [.elem "type" [] [.text rt], .elem "detaileddescription" [] []]

/-- Schematic member carrying three description sections: one of kind
"note" and two of kind "return" with distinct contents, for the
first-return-section-wins scan. -/
def retSectsMember (rt nt c1 c2 : String) : Node :=
  .elem "memberdef" []
    [.elem "type" [] [.text rt],
     .elem "detaileddescription" [] [],
     .elem "simplesect" [("kind", "note")] [.elem "para" [] [.text nt]],
     .elem "simplesect" [("kind", "return")] [.elem "para" [] [.text c1]],
     .elem "simplesect" [("kind", "return")] [.elem "para" [] [.text c2]]]

/-- Schematic member with one declared parameter named "slot" and one
documented parameter item whose name is arbitrary. -/
def paramDocMember (x : String) : Node :=
  .elem "memberdef" []
    [.elem "type" [] [.text "int"],
     .elem "type" [] [.text "seL4_CPtr"],
     .elem "declname" [] [.text "slot"],
     .elem "parameteritem" []
       [.elem "parametername" [] [.text x],
        .elem "parameterdescription" [] [.elem "para" [] [.text "d"]]],
     .elem "detaileddescription" [] []]

/-- Schematic member with an id, a display name and a manual label: the
exact fields `build_ref_dict` reads. -/
def namedMember (idv nm lb : String) : Node :=
  .elem "memberdef" [("id", idv)]
    [.elem "name" [] [.text nm], .elem "manual" [("label", lb)] []]

/-- One declared parameter: a `type` node and a `declname` node. -/
def paramDecl (p : String × String) : Node :=
  .elem "param" [] [.elem "type" [] [.text p.1], .elem "declname" [] [.text p.2]]

/-- Schematic member with return type "int" and an arbitrary list of
declared (type, name) parameter pairs. -/
def declMember (pairs : List (String × String)) : Node :=
  .elem "memberdef" []
    ([Node.elem "type" [] [.text "int"]] ++ pairs.map paramDecl ++
     [Node.elem "detaileddescription" [] []])

/-- Member whose single parameter has declared type "void" and no declared
name: the canonical "no parameters" declaration. -/
def voidParamMember : Node :=
  .elem "memberdef" []
    [.elem "type" [] [.text "int"], .elem "type" [] [.text "void"],
     .elem "detaileddescription" [] []]

/-- A concrete document with no members but a top-level description. -/
def soupNoMembers : Node :=
  .elem "doxygen" [] [.elem "compounddef" []
    [.elem "detaileddescription" [] [.elem "para" [] [.text "top level"]]]]

/-- A concrete document with two members with distinct names and ids. -/
def soupTwoMembers : Node :=
  .elem "doxygen" [] [.elem "compounddef" []
    [namedMember "id_a" "fn_a" "lab_a", namedMember "id_b" "fn_b" "lab_b"]]

/-- A concrete document with two members sharing the display name. -/
def soupNameClash : Node :=
  .elem "doxygen" [] [.elem "compounddef" []
    [namedMember "id_a" "fn" "lab_a", namedMember "id_b" "fn" "lab_b"]]

/-! ### Helper lemmas -/

theorem strDataAppend (s t : String) : (s ++ t).data = s.data ++ t.data := rfl

@[simp] theorem strAppendEmpty (s : String) : s ++ "" = s := by
  cases s with
  | mk l => show String.mk (l ++ []) = String.mk l; rw [List.append_nil]

@[simp] theorem strEmptyAppend (s : String) : "" ++ s = s := by
  cases s with
  | mk l => rfl

theorem strAppendAssoc (a b c : String) : a ++ b ++ c = a ++ (b ++ c) := by
  cases a with
  | mk la =>
    cases b with
    | mk lb =>
      cases c with
      | mk lc => show String.mk _ = String.mk _; rw [List.append_assoc]

theorem text_escape_append (s t : String) :
    text_escape (s ++ t) = text_escape s ++ text_escape t := by
  show String.mk ((s.data ++ t.data).flatMap escapeChar) = _
  rw [List.flatMap_append]
  rfl

theorem flatMap_escapeChar_id (l : List Char) (h : ∀ c ∈ l, c ≠ '_') :
    l.flatMap escapeChar = l := by
  induction l with
  | nil => rfl
  | cons c cs ih =>
    have hc : c ≠ '_' := h c (by simp)
    simp only [List.flatMap_cons, escapeChar, if_neg hc]
    rw [ih (fun x hx => h x (by simp [hx]))]
    rfl

/-! ### Claim theorems -/

/-- C7: the text escaper is total, distributes over concatenation,
rewrites the reserved character (the underscore of
`LatexGenerator.ESCAPE_PATTERNS`) to its exact designated sequence,
leaves every other character unchanged, and is the identity on any
string containing no reserved character. -/
theorem claim_C7_text_escape :
    (∀ s t : String, text_escape (s ++ t) = text_escape s ++ text_escape t) ∧
    (text_escape "_" = "\\_") ∧
    (∀ c : Char, c ≠ '_' → text_escape (String.singleton c) = String.singleton c) ∧
    (∀ s : String, (∀ c ∈ s.data, c ≠ '_') → text_escape s = s) := by
  refine ⟨text_escape_append, rfl, ?_, ?_⟩
  · intro c hc
    show String.mk ([c].flatMap escapeChar) = String.singleton c
    rw [flatMap_escapeChar_id [c] (by simpa using hc)]
    rfl
  · intro s hs
    cases s with
    | mk l =>
      show String.mk (l.flatMap escapeChar) = String.mk l
      rw [flatMap_escapeChar_id l hs]

/-- C7 witness: the escaper applied at concrete inputs. -/
theorem claim_C7_text_escape_witness :
    text_escape (String.singleton 'a') = String.singleton 'a' ∧ text_escape "seL4" = "seL4" :=
  ⟨claim_C7_text_escape.2.2.1 'a' (by decide),
   claim_C7_text_escape.2.2.2 "seL4" (by decide)⟩

/-- C5: a node whose tag is outside the parse table renders as the empty
string (no error), and a reference-by-id or reference-by-name node
renders as the empty string when the reference dict is empty, whatever
its attributes and children. -/
theorem claim_C5_graceful_degradation :
    (∀ (fuel : Nat) (ref_dict : RefDict) (nm : String)
      (attrs : List (String × String)) (cs : List Node),
      nm ∉ (["para", "computeroutput", "texttt", "ref", "nameref", "shortref",
        "obj", "errorenumdesc", "orderedlist", "listitem", "itemizedlist",
        "autoref"] : List String) →
      parse_para ref_dict (fuel + 1) (.elem nm attrs cs) = some "") ∧
    (∀ (fuel : Nat) (attrs : List (String × String)) (cs : List Node),
      parse_para [] (fuel + 1) (.elem "ref" attrs cs) = some "" ∧
      parse_para [] (fuel + 1) (.elem "nameref" attrs cs) = some "") := by
  constructor
  · intro fuel ref_dict nm attrs cs h
    simp only [List.mem_cons, not_or] at h
    obtain ⟨h1, h2, h3, h4, h5, h6, h7, h8, h9, h10, h11, h12, -⟩ := h
    simp [parse_para, h1, h2, h3, h4, h5, h6, h7, h8, h9, h10, h11, h12]
  · intro fuel attrs cs
    constructor <;> simp [parse_para]

/-- C5 witness: a concrete unknown tag and concrete reference nodes with
an empty reference dict. -/
theorem claim_C5_graceful_degradation_witness :
    parse_para [] 1 (.elem "bold" [] [.text "x"]) = some "" ∧
    parse_para [] 1 (.elem "ref" [("refid", "r1")] []) = some "" ∧
    parse_para [] 1 (.elem "nameref" [("name", "n1")] []) = some "" :=
  ⟨claim_C5_graceful_degradation.1 0 [] "bold" [] [.text "x"] (by decide),
   (claim_C5_graceful_degradation.2 0 [("refid", "r1")] []).1,
   (claim_C5_graceful_degradation.2 0 [("name", "n1")] []).2⟩

/-- C1 counterexample: on a member with both flags affirmative,
`parse_prototype` returns "static inline int f" — the token "static"
precedes "inline", so the output is not the claimed
"inline"-before-"static" form "inline static int f". -/
theorem claim_C1_counterexample :
    parse_prototype (protoMember "yes" "yes" "int" "f") = some "static inline int f" ∧
    "static inline int f" ≠ "inline static int f" :=
  ⟨rfl, by decide⟩

/-- C1 amended: for every member whose inline flag and static flag are
both affirmative, `parse_prototype` returns the declared return-type
text and name text prefixed by the literal tokens "inline" and
"static", each prefix present exactly when the corresponding flag is
affirmative, with "static" appearing before "inline" in the output
string (the source prepends "inline " first and then "static " in
front of it). -/
theorem claim_C1_amended (i s t nm : String) :
    parse_prototype (protoMember i s t nm) =
      some ((if s = "yes" then "static " else "") ++
        ((if i = "yes" then "inline " else "") ++
          (text_escape t ++ " " ++ text_escape nm))) := by
  by_cases hs : s = "yes" <;> by_cases hi : i = "yes" <;>
    simp [parse_prototype, protoMember, Node.attr, Node.find, Node.findAll,
      Node.descendants, Node.descendantsL, hasName, get_text, Node.stringOf,
      Node.getText, Node.getTextL, hs, hi]

@[simp] theorem dictContains_nil (k : String) : dictContains ([] : List (String × α)) k = false := rfl

theorem dictContains_cons (p : String × α) (d : List (String × α)) (k : String) :
    dictContains (p :: d) k = (p.1 == k || dictContains d k) := rfl

@[simp] theorem dictGet?_nil (k : String) : dictGet? ([] : List (String × α)) k = none := rfl

theorem dictGet?_cons (p : String × α) (d : List (String × α)) (k : String) :
    dictGet? (p :: d) k = if p.1 == k then some p.2 else dictGet? d k := by
  unfold dictGet?
  cases hpk : (p.1 == k) with
  | true => simp [List.find?, hpk]
  | false => simp [List.find?, hpk]

theorem dictContains_append (d1 d2 : List (String × α)) (k : String) :
    dictContains (d1 ++ d2) k = (dictContains d1 k || dictContains d2 k) := by
  simp [dictContains, List.any_append]

theorem dictGet?_append_of_not_mem (d1 d2 : List (String × α)) (k : String)
    (h : dictContains d1 k = false) :
    dictGet? (d1 ++ d2) k = dictGet? d2 k := by
  induction d1 with
  | nil => rfl
  | cons p rest ih =>
    rw [dictContains_cons, Bool.or_eq_false_iff] at h
    rw [List.cons_append, dictGet?_cons, if_neg (by simp [h.1]), ih h.2]

theorem dictContains_map_over (d : List (String × α)) (k k' : String) (v : α) :
    dictContains (d.map (fun p => if p.1 == k then (k, v) else p)) k' =
      dictContains d k' := by
  induction d with
  | nil => rfl
  | cons p rest ih =>
    rw [List.map_cons, dictContains_cons, dictContains_cons, ih]
    by_cases hp : p.1 = k
    · rw [hp, if_pos (by simp)]
    · rw [if_neg (by simp [hp])]

theorem dictContains_insert (d : List (String × α)) (k k' : String) (v : α) :
    dictContains (dictInsert d k v) k' = (k' == k || dictContains d k') := by
  unfold dictInsert
  by_cases h : dictContains d k
  · rw [if_pos h, dictContains_map_over]
    by_cases hk : k' = k
    · subst hk
      simp [h]
    · simp [hk]
  · rw [if_neg h, dictContains_append]
    by_cases hk : k' = k
    · subst hk
      simp [dictContains]
    · have h1 : ((k : String) == k') = false := by
        simp
        exact fun e => hk e.symm
      have h2 : ((k' : String) == k) = false := by simp [hk]
      simp [dictContains, h1, h2]

theorem dictGet?_map_over_ne (d : List (String × α)) (k k' : String) (v : α)
    (h : k' ≠ k) :
    dictGet? (d.map (fun p => if p.1 == k then (k, v) else p)) k' = dictGet? d k' := by
  induction d with
  | nil => rfl
  | cons p rest ih =>
    rw [List.map_cons, dictGet?_cons, dictGet?_cons, ih]
    by_cases hp : p.1 = k
    · have hkk : ((k : String) == k') = false := by
        simp
        exact fun e => h e.symm
      simp [hp, hkk]
    · simp [hp]

theorem dictGet?_insert_self (d : List (String × α)) (k : String) (v : α) :
    dictGet? (dictInsert d k v) k = some v := by
  unfold dictInsert
  by_cases h : dictContains d k
  · rw [if_pos h]
    induction d with
    | nil => simp [dictContains] at h
    | cons p rest ih =>
      rw [List.map_cons, dictGet?_cons]
      by_cases hp : p.1 = k
      · rw [hp, if_pos (by simp), if_pos (by simp)]
      · rw [dictContains_cons, Bool.or_eq_true_iff] at h
        rcases h with h1 | h2
        · exact absurd (by simpa using h1) hp
        · rw [if_neg (by simp [hp]), ih h2]
  · rw [if_neg h]
    rw [dictGet?_append_of_not_mem _ _ _ (by simpa using h)]
    rw [dictGet?_cons, if_pos (by simp)]

theorem dictGet?_append_single_ne (d : List (String × α)) (k k' : String) (v : α)
    (h : k' ≠ k) :
    dictGet? (d ++ [(k, v)]) k' = dictGet? d k' := by
  induction d with
  | nil =>
    show dictGet? [(k, v)] k' = none
    rw [dictGet?_cons, if_neg (by simp; exact fun e => h e.symm)]
    rfl
  | cons p rest ih =>
    rw [List.cons_append, dictGet?_cons, dictGet?_cons, ih]

theorem dictGet?_insert_ne (d : List (String × α)) (k k' : String) (v : α)
    (h : k' ≠ k) :
    dictGet? (dictInsert d k v) k' = dictGet? d k' := by
  unfold dictInsert
  by_cases hc : dictContains d k
  · rw [if_pos hc]
    exact dictGet?_map_over_ne d k k' v h
  · rw [if_neg hc]
    exact dictGet?_append_single_ne d k k' v h

theorem length_dictInsert_of_not_mem (d : List (String × α)) (k : String) (v : α)
    (h : dictContains d k = false) :
    (dictInsert d k v).length = d.length + 1 := by
  unfold dictInsert
  rw [if_neg (by simp [h])]
  simp

theorem length_dictInsert_of_mem (d : List (String × α)) (k : String) (v : α)
    (h : dictContains d k = true) :
    (dictInsert d k v).length = d.length := by
  unfold dictInsert
  rw [if_pos h]
  simp

theorem splitWS_all_ws (l : List Char) (h : ∀ c ∈ l, isWS c = true) :
    splitWS l [] = [] := by
  induction l with
  | nil => rfl
  | cons c cs ih =>
    have hc := h c (by simp)
    simp only [splitWS, hc, if_true, List.isEmpty_nil, List.nil_append]
    exact ih (fun x hx => h x (by simp [hx]))

/-- C10: the reference dict binds the raw display name (not its escaped
form) while the stored descriptor's name field is escaped, so a
reference-by-name node resolves through the raw name and renders the
display name escaped exactly once. -/
theorem claim_C10_raw_name_key (fuel : Nat) (idv nm lb : String) (h : idv ≠ nm) :
    build_ref_dict (.elem "doxygen" [] [namedMember idv nm lb]) =
      some [(idv, ⟨text_escape nm, lb, idv⟩), (nm, ⟨text_escape nm, lb, idv⟩)] ∧
    dictGet? [(idv, (⟨text_escape nm, lb, idv⟩ : RefData)),
        (nm, ⟨text_escape nm, lb, idv⟩)] nm = some ⟨text_escape nm, lb, idv⟩ ∧
    (∀ k, k ≠ idv → k ≠ nm →
      dictGet? [(idv, (⟨text_escape nm, lb, idv⟩ : RefData)),
        (nm, ⟨text_escape nm, lb, idv⟩)] k = none) ∧
    parse_para [(idv, ⟨text_escape nm, lb, idv⟩), (nm, ⟨text_escape nm, lb, idv⟩)]
        (fuel + 1) (.elem "nameref" [("name", nm)] []) =
      some ("\\apifunc\x7b" ++ text_escape nm ++ "\x7d\x7b" ++ lb ++ "\x7d") := by
  refine ⟨?_, ?_, ?_, ?_⟩
  · simp [build_ref_dict, namedMember, Node.findAll, Node.descendants,
      Node.descendantsL, hasName, memberEntry, Node.find, Node.attr,
      Node.stringOf, dictInsert, dictContains, h]
  · rw [dictGet?_cons, if_neg (by simp; exact fun e => h e), dictGet?_cons,
      if_pos (by simp)]
  · intro k hki hkn
    rw [dictGet?_cons, if_neg (by simp; exact fun e => hki e.symm), dictGet?_cons,
      if_neg (by simp; exact fun e => hkn e.symm)]
    rfl
  · have hget : dictGet? [(idv, (⟨text_escape nm, lb, idv⟩ : RefData)),
        (nm, ⟨text_escape nm, lb, idv⟩)] nm = some ⟨text_escape nm, lb, idv⟩ := by
      rw [dictGet?_cons, if_neg (by simp; exact fun e => h e), dictGet?_cons,
        if_pos (by simp)]
    simp [parse_para, Node.attr, ref_format, hget]

/-- C10 witness: a member with a distinct id and a name containing the
reserved character. -/
theorem claim_C10_raw_name_key_witness :
    build_ref_dict (.elem "doxygen" [] [namedMember "id_1" "f_x" "lb1"]) =
      some [("id_1", ⟨"f\\_x", "lb1", "id_1"⟩), ("f_x", ⟨"f\\_x", "lb1", "id_1"⟩)] ∧
    parse_para [("id_1", ⟨"f\\_x", "lb1", "id_1"⟩), ("f_x", ⟨"f\\_x", "lb1", "id_1"⟩)]
        1 (.elem "nameref" [("name", "f_x")] []) =
      some "\\apifunc\x7bf\\_x\x7d\x7blb1\x7d" :=
  ⟨(claim_C10_raw_name_key 0 "id_1" "f_x" "lb1" (by decide)).1,
   (claim_C10_raw_name_key 0 "id_1" "f_x" "lb1" (by decide)).2.2.2⟩

/-- C6: an id or name absent from a non-empty reference dict makes
`ref_format` (and hence the rendering of the reference node) fail with a
lookup error, and a documented parameter-item name that is not a declared
parameter name makes `parse_detailed_desc` fail with a lookup error. -/
theorem claim_C6_lookup_failures (fuel : Nat) (ref_dict : RefDict) (r x : String)
    (cs : List Node) (hne : ref_dict ≠ []) (habs : dictGet? ref_dict r = none)
    (hx : x ≠ "slot") :
    ref_format r ref_dict = none ∧
    parse_para ref_dict (fuel + 1) (.elem "ref" [("refid", r)] cs) = none ∧
    parse_detailed_desc (fuel + 2) (paramDocMember x) ref_dict = none := by
  have hlen : 0 < ref_dict.length := by
    cases ref_dict with
    | nil => exact absurd rfl hne
    | cons p rest => simp
  refine ⟨?_, ?_, ?_⟩
  · simp [ref_format, habs]
  · simp [parse_para, hlen, Node.attr, ref_format, habs]
  · simp [parse_detailed_desc, paramDocMember, Node.findAll, Node.descendants,
      Node.descendantsL, hasName, paramLoop, Node.getText, Node.getTextL,
      attachDescs, Node.find, get_text, Node.stringOf, parse_para,
      dictContains, dictInsert, hx, Ne.symm hx]

/-- C6 witness: concrete missing id and undeclared documented parameter. -/
theorem claim_C6_lookup_failures_witness :
    ref_format "absent" [("k1", ⟨"n", "l", "k1"⟩)] = none ∧
    parse_detailed_desc 2 (paramDocMember "nosuch") [("k1", ⟨"n", "l", "k1"⟩)] = none :=
  ⟨(claim_C6_lookup_failures 0 [("k1", ⟨"n", "l", "k1"⟩)] "absent" "nosuch" []
      (by simp) rfl (by decide)).1,
   (claim_C6_lookup_failures 0 [("k1", ⟨"n", "l", "k1"⟩)] "absent" "nosuch" []
      (by simp) rfl (by decide)).2.2⟩

/-- C9: `parse_detailed_desc` indexes the last whitespace-delimited
component of the return-type text without a guard: on a member whose
return-type text is empty or all-whitespace the call fails, and whenever
the text has a last component the call succeeds, with the return doc
defaulting from that component. -/
theorem claim_C9_return_type_guard (fuel : Nat) (ref_dict : RefDict) (rt : String) :
    ((∀ c ∈ rt.data, isWS c = true) →
      parse_detailed_desc fuel (retOnlyMember rt) ref_dict = none) ∧
    (∀ l, (pysplit rt).getLast? = some l →
      parse_detailed_desc fuel (retOnlyMember rt) ref_dict =
        some ("\\todo", generate_empty_param_string,
          todo_if_empty (pystrip (default_return_doc l)))) := by
  constructor
  · intro hws
    have hsplit : pysplit rt = [] := splitWS_all_ws rt.data hws
    by_cases hrt : rt = ""
    · subst hrt
      simp [parse_detailed_desc, retOnlyMember, Node.findAll, Node.descendants,
        Node.descendantsL, hasName, paramLoop, attachDescs, Node.find,
        Node.findAllDirect, Node.children, detailsLoop, get_text, Node.stringOf,
        Node.getText, Node.getTextL, pysplit, splitWS]
    · simp [parse_detailed_desc, retOnlyMember, Node.findAll, Node.descendants,
        Node.descendantsL, hasName, paramLoop, attachDescs, Node.find,
        Node.findAllDirect, Node.children, detailsLoop, get_text, Node.stringOf,
        Node.getText, Node.getTextL, hrt, hsplit]
  · intro l hl
    have hrt : rt ≠ "" := by
      intro he
      rw [he] at hl
      simp [pysplit, splitWS] at hl
    simp [parse_detailed_desc, retOnlyMember, Node.findAll, Node.descendants,
      Node.descendantsL, hasName, paramLoop, attachDescs, Node.find,
      Node.findAllDirect, Node.children, detailsLoop, get_text, Node.stringOf,
      Node.getText, Node.getTextL, retScan, hrt, hl, pystrip, todo_if_empty]

/-- C9 witness: an all-whitespace return type fails; a two-component
return type ending in "void" succeeds with the no-return marker. -/
theorem claim_C9_return_type_guard_witness :
    parse_detailed_desc 1 (retOnlyMember "  ") [] = none ∧
    parse_detailed_desc 1 (retOnlyMember "unsigned void") [] =
      some ("\\todo", generate_empty_param_string,
        todo_if_empty (pystrip (default_return_doc "void"))) :=
  ⟨(claim_C9_return_type_guard 1 [] "  ").1 (by decide),
   (claim_C9_return_type_guard 1 [] "unsigned void").2 "void" rfl⟩

/-- C3: with no return section, the return doc defaults to the no-return
marker exactly when the last whitespace-delimited component of the return
type is "void" and to the to-do marker (empty passed through the
placeholder substitution) otherwise; with return-tagged sections present,
the first one's rendered content replaces the default — the preceding
non-return section is skipped and the second return section is ignored —
and the result again passes through the placeholder substitution. -/
theorem claim_C3_return_doc (fuel : Nat) (ref_dict : RefDict)
    (rt nt c1 c2 l : String) (hl : (pysplit rt).getLast? = some l) :
    parse_detailed_desc fuel (retOnlyMember rt) ref_dict =
      some ("\\todo", generate_empty_param_string,
        if l == "void" then "\\noret" else "\\todo") ∧
    parse_detailed_desc (fuel + 2) (retSectsMember rt nt c1 c2) ref_dict =
      some ("\\todo", generate_empty_param_string,
        todo_if_empty (pystrip (text_escape c1))) := by
  have hrt : rt ≠ "" := by
    intro he
    rw [he] at hl
    simp [pysplit, splitWS] at hl
  constructor
  · by_cases hv : l = "void"
    · simp [parse_detailed_desc, retOnlyMember, Node.findAll, Node.descendants,
        Node.descendantsL, hasName, paramLoop, attachDescs, Node.find,
        Node.findAllDirect, Node.children, detailsLoop, get_text, Node.stringOf,
        Node.getText, Node.getTextL, retScan, hrt, hl, hv, default_return_doc,
        pystrip, todo_if_empty]
      rfl
    · simp [parse_detailed_desc, retOnlyMember, Node.findAll, Node.descendants,
        Node.descendantsL, hasName, paramLoop, attachDescs, Node.find,
        Node.findAllDirect, Node.children, detailsLoop, get_text, Node.stringOf,
        Node.getText, Node.getTextL, retScan, hrt, hl, hv, default_return_doc,
        pystrip, todo_if_empty]
  · simp [parse_detailed_desc, retSectsMember, Node.findAll, Node.descendants,
      Node.descendantsL, hasName, paramLoop, attachDescs, Node.find,
      Node.findAllDirect, Node.children, detailsLoop, get_text, Node.stringOf,
      Node.getText, Node.getTextL, retScan, Node.attr, parse_para, hrt, hl,
      pystrip, todo_if_empty]

/-- C3 witness: a void return type without sections yields the no-return
marker; with two return sections the first section's text wins. -/
theorem claim_C3_return_doc_witness :
    parse_detailed_desc 2 (retOnlyMember "void") [] =
      some ("\\todo", generate_empty_param_string, "\\noret") ∧
    parse_detailed_desc 2 (retSectsMember "void" "a note" "first wins" "second") [] =
      some ("\\todo", generate_empty_param_string,
        todo_if_empty (pystrip (text_escape "first wins"))) :=
  ⟨(claim_C3_return_doc 2 [] "void" "a note" "first wins" "second" "void" rfl).1,
   (claim_C3_return_doc 0 [] "void" "a note" "first wins" "second" "void" rfl).2⟩

/-- C8: a document with no member records yields exactly the literal
"No methods." — no surrounding template — whatever the top-level
description rendered to. -/
theorem claim_C8_no_methods (fuel : Nat) (soup summary : Node) (level out0 : String)
    (hmem : soup.findAll "memberdef" = [])
    (hsum : soup.find "compounddef" = some summary)
    (htop : parseTopLevelDescs fuel summary = some out0) :
    generate_general_syscall_doc fuel soup level = some "No methods." := by
  simp [generate_general_syscall_doc, build_ref_dict, hmem, hsum, htop]

/-- C8 witness: a concrete document with a top-level description paragraph
and zero members. -/
theorem claim_C8_no_methods_witness :
    generate_general_syscall_doc 3 soupNoMembers "subsection" = some "No methods." :=
  claim_C8_no_methods 3 soupNoMembers
    (.elem "compounddef" []
      [.elem "detaileddescription" [] [.elem "para" [] [.text "top level"]]])
    "subsection" "top level" rfl rfl rfl

theorem buildFold_cons (e : String × String × RefData)
    (es : List (String × String × RefData)) (acc : RefDict) :
    buildFold (e :: es) acc =
      buildFold es (dictInsert (dictInsert acc e.1 e.2.2) e.2.1 e.2.2) := rfl

theorem foldlM_memberEntry (ms : List Node) (es : List (String × String × RefData))
    (acc : RefDict) (h : entriesOf ms = some es) :
    (ms.foldlM (fun ret member => do
      let (ref_id, nm, data) ← memberEntry member
      pure (dictInsert (dictInsert ret ref_id data) nm data)) acc) =
      some (buildFold es acc) := by
  induction ms generalizing es acc with
  | nil =>
    simp [entriesOf] at h
    subst h
    rfl
  | cons m ms ih =>
    rw [List.foldlM_cons]
    cases hm : memberEntry m with
    | none =>
      rw [entriesOf, hm] at h
      simp at h
    | some e =>
      rw [entriesOf, hm] at h
      cases hr : entriesOf ms with
      | none =>
        rw [hr] at h
        simp at h
      | some rest =>
        rw [hr] at h
        simp at h
        subst h
        simp only [hm, Option.bind_some, Option.pure_def]
        rw [buildFold_cons]
        exact ih rest _ hr

theorem build_ref_dict_eq_buildFold (soup : Node)
    (es : List (String × String × RefData))
    (h : entriesOf (soup.findAll "memberdef") = some es) :
    build_ref_dict soup = some (buildFold es []) :=
  foldlM_memberEntry (soup.findAll "memberdef") es [] h

theorem buildFold_spec (es : List (String × String × RefData)) (acc : RefDict)
    (hids : (es.map (fun e => e.1)).Nodup)
    (hnames : (es.map (fun e => e.2.1)).Nodup)
    (hcross : ∀ e ∈ es, ∀ x ∈ es, e.1 ≠ x.2.1)
    (hfresh : ∀ e ∈ es, dictContains acc e.1 = false ∧
      dictContains acc e.2.1 = false) :
    (buildFold es acc).length = acc.length + 2 * es.length ∧
    (∀ k, dictContains acc k = true →
      dictGet? (buildFold es acc) k = dictGet? acc k) ∧
    (∀ e ∈ es, dictGet? (buildFold es acc) e.1 = some e.2.2 ∧
      dictGet? (buildFold es acc) e.2.1 = some e.2.2) := by
  induction es generalizing acc with
  | nil => simp [buildFold]
  | cons e es ih =>
    have hids2 := hids
    have hnames2 := hnames
    rw [List.map_cons, List.nodup_cons] at hids2 hnames2
    have hid_ne_nm : e.1 ≠ e.2.1 := hcross e (by simp) e (by simp)
    have hfe := hfresh e (by simp)
    have hcont1 : dictContains (dictInsert acc e.1 e.2.2) e.2.1 = false := by
      rw [dictContains_insert, hfe.2]
      simp
      exact fun h => hid_ne_nm h.symm
    have hconta : ∀ k,
        dictContains (dictInsert (dictInsert acc e.1 e.2.2) e.2.1 e.2.2) k =
        (k == e.2.1 || (k == e.1 || dictContains acc k)) := by
      intro k
      rw [dictContains_insert, dictContains_insert]
    have hlen2 : (dictInsert (dictInsert acc e.1 e.2.2) e.2.1 e.2.2).length =
        acc.length + 2 := by
      rw [length_dictInsert_of_not_mem _ _ _ hcont1,
        length_dictInsert_of_not_mem _ _ _ hfe.1]
    have hfresh2 : ∀ x ∈ es,
        dictContains (dictInsert (dictInsert acc e.1 e.2.2) e.2.1 e.2.2) x.1 = false ∧
        dictContains (dictInsert (dictInsert acc e.1 e.2.2) e.2.1 e.2.2) x.2.1 = false := by
      intro x hx
      have hx1n : x.1 ≠ e.2.1 :=
        hcross x (List.mem_cons_of_mem e hx) e (List.mem_cons_self e es)
      have hx1i : x.1 ≠ e.1 := by
        intro he
        exact hids2.1 (he ▸ List.mem_map_of_mem (fun y => y.1) hx)
      have hx2n : x.2.1 ≠ e.2.1 := by
        intro he
        exact hnames2.1 (he ▸ List.mem_map_of_mem (fun y => y.2.1) hx)
      have hx2i : x.2.1 ≠ e.1 := fun he =>
        (hcross e (List.mem_cons_self e es) x (List.mem_cons_of_mem e hx)) he.symm
      have hfx := hfresh x (List.mem_cons_of_mem e hx)
      constructor
      · rw [hconta, hfx.1]
        simp [hx1n, hx1i]
      · rw [hconta, hfx.2]
        simp [hx2n, hx2i]
    obtain ⟨ihlen, ihpres, ihget⟩ :=
      ih (dictInsert (dictInsert acc e.1 e.2.2) e.2.1 e.2.2) hids2.2 hnames2.2
        (fun x hx y hy =>
          hcross x (List.mem_cons_of_mem e hx) y (List.mem_cons_of_mem e hy))
        hfresh2
    refine ⟨?_, ?_, ?_⟩
    · rw [buildFold_cons, ihlen, hlen2]
      simp [Nat.mul_add]
      omega
    · intro k hk
      have hkne1 : k ≠ e.1 := by
        intro he
        rw [he, hfe.1] at hk
        cases hk
      have hkne2 : k ≠ e.2.1 := by
        intro he
        rw [he, hfe.2] at hk
        cases hk
      have hk2 : dictContains (dictInsert (dictInsert acc e.1 e.2.2) e.2.1 e.2.2) k
          = true := by
        rw [hconta, hk]
        simp
      rw [buildFold_cons, ihpres k hk2, dictGet?_insert_ne _ _ _ _ hkne2,
        dictGet?_insert_ne _ _ _ _ hkne1]
    · intro x hx
      rcases List.mem_cons.mp hx with hxe | hx2
      · subst hxe
        constructor
        · have hc : dictContains (dictInsert (dictInsert acc x.1 x.2.2) x.2.1 x.2.2)
              x.1 = true := by
            rw [hconta]
            simp
          rw [buildFold_cons, ihpres x.1 hc, dictGet?_insert_ne _ _ _ _ hid_ne_nm,
            dictGet?_insert_self]
        · have hc : dictContains (dictInsert (dictInsert acc x.1 x.2.2) x.2.1 x.2.2)
              x.2.1 = true := by
            rw [hconta]
            simp
          rw [buildFold_cons, ihpres x.2.1 hc, dictGet?_insert_self]
      · exact ihget x hx2

/-- C4: a reference dict built from members with pairwise-distinct ids and
display names (ids and names not coinciding) has exactly 2N entries, each
member binding its id key and its name key to the identical descriptor
value, so lookup by either key returns identical data; when two members
share a display name, the later member's descriptor overwrites the
earlier one under the shared name key while both id keys remain present,
distinct and correct. -/
theorem claim_C4_ref_table :
    (∀ (soup : Node) (es : List (String × String × RefData)),
      entriesOf (soup.findAll "memberdef") = some es →
      (es.map (fun e => e.1)).Nodup →
      (es.map (fun e => e.2.1)).Nodup →
      (∀ e ∈ es, ∀ x ∈ es, e.1 ≠ x.2.1) →
      build_ref_dict soup = some (buildFold es []) ∧
      (buildFold es []).length = 2 * es.length ∧
      (∀ e ∈ es, dictGet? (buildFold es []) e.1 = some e.2.2 ∧
        dictGet? (buildFold es []) e.2.1 = some e.2.2)) ∧
    (∀ (soup : Node) (i1 i2 n : String) (d1 d2 : RefData),
      entriesOf (soup.findAll "memberdef") = some [(i1, n, d1), (i2, n, d2)] →
      i1 ≠ i2 → i1 ≠ n → i2 ≠ n →
      build_ref_dict soup = some (buildFold [(i1, n, d1), (i2, n, d2)] []) ∧
      buildFold [(i1, n, d1), (i2, n, d2)] [] =
        [(i1, d1), (n, d2), (i2, d2)] ∧
      dictGet? (buildFold [(i1, n, d1), (i2, n, d2)] []) n = some d2 ∧
      dictGet? (buildFold [(i1, n, d1), (i2, n, d2)] []) i1 = some d1 ∧
      dictGet? (buildFold [(i1, n, d1), (i2, n, d2)] []) i2 = some d2 ∧
      (buildFold [(i1, n, d1), (i2, n, d2)] []).length = 3) := by
  constructor
  · intro soup es hes hids hnames hcross
    have hb := build_ref_dict_eq_buildFold soup es hes
    have hsp := buildFold_spec es [] hids hnames hcross (fun e _ => ⟨rfl, rfl⟩)
    exact ⟨hb, by simpa using hsp.1, hsp.2.2⟩
  · intro soup i1 i2 n d1 d2 hes h12 h13 h23
    have hb := build_ref_dict_eq_buildFold soup _ hes
    have e1 : ((i1 : String) == n) = false := by simp [h13]
    have e2 : ((i2 : String) == n) = false := by simp [h23]
    have e3 : ((i1 : String) == i2) = false := by simp [h12]
    have e4 : ((n : String) == i2) = false := by
      simp
      exact fun e => h23 e.symm
    have heq : buildFold [(i1, n, d1), (i2, n, d2)] [] =
        [(i1, d1), (n, d2), (i2, d2)] := by
      simp [buildFold, dictInsert, dictContains, e1, e2, e3, e4]
      exact ⟨fun e => absurd e h13, fun e => absurd e h23⟩
    refine ⟨hb, heq, ?_, ?_, ?_, ?_⟩
    · rw [heq, dictGet?_cons, if_neg (by simp [h13]), dictGet?_cons,
        if_pos (by simp)]
    · rw [heq, dictGet?_cons, if_pos (by simp)]
    · rw [heq, dictGet?_cons, if_neg (by simp [h12]), dictGet?_cons,
        if_neg (by simp [e4]), dictGet?_cons, if_pos (by simp)]
    · rw [heq]
      rfl

/-- C4 witness: two concrete members with distinct names give a
four-entry dict; two members sharing a name give a three-entry dict whose
name key holds the later descriptor. -/
theorem claim_C4_ref_table_witness :
    build_ref_dict soupTwoMembers = some (buildFold
      [("id_a", "fn_a", ⟨"fn\\_a", "lab_a", "id_a"⟩),
       ("id_b", "fn_b", ⟨"fn\\_b", "lab_b", "id_b"⟩)] []) ∧
    buildFold [("id_a", "fn", ⟨"fn", "lab_a", "id_a"⟩),
        ("id_b", "fn", ⟨"fn", "lab_b", "id_b"⟩)] [] =
      [("id_a", ⟨"fn", "lab_a", "id_a"⟩), ("fn", ⟨"fn", "lab_b", "id_b"⟩),
       ("id_b", ⟨"fn", "lab_b", "id_b"⟩)] :=
  ⟨(claim_C4_ref_table.1 soupTwoMembers
      [("id_a", "fn_a", ⟨"fn\\_a", "lab_a", "id_a"⟩),
       ("id_b", "fn_b", ⟨"fn\\_b", "lab_b", "id_b"⟩)]
      rfl (by decide) (by decide) (by decide)).1,
   (claim_C4_ref_table.2 soupNameClash "id_a" "id_b" "fn"
      ⟨"fn", "lab_a", "id_a"⟩ ⟨"fn", "lab_b", "id_b"⟩
      rfl (by decide) (by decide) (by decide)).2.1⟩

theorem descendantsL_append (xs ys : List Node) :
    Node.descendantsL (xs ++ ys) = Node.descendantsL xs ++ Node.descendantsL ys := by
  induction xs with
  | nil => simp [Node.descendantsL]
  | cons c cs ih => simp [Node.descendantsL, ih]

theorem descL_paramDecl_filter (pairs : List (String × String)) :
    ((Node.descendantsL (pairs.map paramDecl)).filter (hasName "type") =
      pairs.map (fun p => Node.elem "type" [] [.text p.1])) ∧
    ((Node.descendantsL (pairs.map paramDecl)).filter (hasName "declname") =
      pairs.map (fun p => Node.elem "declname" [] [.text p.2])) ∧
    (∀ tag, tag ≠ "param" → tag ≠ "type" → tag ≠ "declname" →
      (Node.descendantsL (pairs.map paramDecl)).filter (hasName tag) = []) := by
  induction pairs with
  | nil => exact ⟨rfl, rfl, fun _ _ _ _ => rfl⟩
  | cons p ps ih =>
    refine ⟨?_, ?_, ?_⟩
    · simp [paramDecl, Node.descendantsL, Node.descendants, hasName,
        List.filter_append, List.filter_cons, ih.1]
    · simp [paramDecl, Node.descendantsL, Node.descendants, hasName,
        List.filter_append, List.filter_cons, ih.2.1]
    · intro tag h1 h2 h3
      simp [paramDecl, Node.descendantsL, Node.descendants, hasName,
        List.filter_append, List.filter_cons, Ne.symm h1, Ne.symm h2, Ne.symm h3,
        ih.2.2 tag h1 h2 h3]

theorem declMember_findAll_type (pairs : List (String × String)) :
    (declMember pairs).findAll "type" =
      Node.elem "type" [] [.text "int"] ::
        pairs.map (fun p => Node.elem "type" [] [.text p.1]) := by
  show (Node.descendantsL _).filter _ = _
  rw [descendantsL_append, descendantsL_append]
  simp [Node.descendantsL, Node.descendants, hasName, List.filter_append,
    (descL_paramDecl_filter pairs).1]

theorem declMember_findAll_declname (pairs : List (String × String)) :
    (declMember pairs).findAll "declname" =
      pairs.map (fun p => Node.elem "declname" [] [.text p.2]) := by
  show (Node.descendantsL _).filter _ = _
  rw [descendantsL_append, descendantsL_append]
  simp [Node.descendantsL, Node.descendants, hasName, List.filter_append,
    (descL_paramDecl_filter pairs).2.1]

theorem declMember_findAll_other (pairs : List (String × String)) (tag : String)
    (h1 : tag ≠ "param") (h2 : tag ≠ "type")
    (h3 : tag ≠ "declname") (h4 : tag ≠ "detaileddescription") :
    (declMember pairs).findAll tag = [] := by
  show (Node.descendantsL _).filter _ = _
  rw [descendantsL_append, descendantsL_append]
  simp [Node.descendantsL, Node.descendants, hasName, List.filter_append,
    Ne.symm h1, Ne.symm h2, Ne.symm h3, Ne.symm h4,
    (descL_paramDecl_filter pairs).2.2 tag h1 h2 h3]

theorem declMember_find_ddesc (pairs : List (String × String)) :
    (declMember pairs).find "detaileddescription" =
      some (.elem "detaileddescription" [] []) := by
  show ((Node.descendantsL _).filter _).head? = _
  rw [descendantsL_append, descendantsL_append]
  simp [Node.descendantsL, Node.descendants, hasName, List.filter_append,
    (descL_paramDecl_filter pairs).2.2 "detaileddescription"
      (by decide) (by decide) (by decide)]

theorem paramLoop_map (pairs : List (String × String)) (params : List (String × PInfo))
    (order : List String) :
    paramLoop (pairs.map (fun p => Node.elem "type" [] [.text p.1]))
        (pairs.map (fun p => Node.elem "declname" [] [.text p.2])) params order =
      some ((pairs.filter (fun p => !(p.1 == "void"))).foldl
          (fun d q => dictInsert d q.2 ⟨q.1, none⟩) params,
        order ++ (pairs.filter (fun p => !(p.1 == "void"))).map (fun q => q.2)) := by
  induction pairs generalizing params order with
  | nil => simp [paramLoop]
  | cons p ps ih =>
    by_cases hv : p.1 = "void"
    · simp [paramLoop, Node.getText, Node.getTextL, hv, List.filter_cons, ih]
    · simp [paramLoop, Node.getText, Node.getTextL, hv, List.filter_cons, ih]

theorem foldl_dictInsert_eq_append (l : List (String × String))
    (d : List (String × PInfo))
    (hnd : (l.map (fun p => p.2)).Nodup)
    (hd : ∀ p ∈ l, dictContains d p.2 = false) :
    l.foldl (fun acc q => dictInsert acc q.2 ⟨q.1, none⟩) d =
      d ++ l.map (fun q => (q.2, (⟨q.1, none⟩ : PInfo))) := by
  induction l generalizing d with
  | nil => simp
  | cons q l ih =>
    rw [List.foldl_cons]
    have hq : dictContains d q.2 = false := hd q (List.mem_cons_self q l)
    have hins : dictInsert d q.2 (⟨q.1, none⟩ : PInfo) = d ++ [(q.2, ⟨q.1, none⟩)] := by
      unfold dictInsert
      rw [if_neg (by simp [hq])]
    rw [hins]
    rw [List.map_cons, List.nodup_cons] at hnd
    have hfr : ∀ p ∈ l,
        dictContains (d ++ [(q.2, (⟨q.1, none⟩ : PInfo))]) p.2 = false := by
      intro p hp
      rw [dictContains_append, hd p (List.mem_cons_of_mem q hp)]
      have hpq : p.2 ≠ q.2 := by
        intro he
        exact hnd.1 (he ▸ List.mem_map_of_mem (fun y => y.2) hp)
      simp [dictContains]
      exact fun e => hpq e.symm
    have hstep := ih (d ++ [(q.2, (⟨q.1, none⟩ : PInfo))]) hnd.2 hfr
    rw [hstep, List.map_cons]
    simp

theorem dictGet?_of_map_nodup (l : List (String × String)) (p : String × String)
    (hp : p ∈ l) (hnd : (l.map (fun q => q.2)).Nodup) :
    dictGet? (l.map (fun q => (q.2, (⟨q.1, none⟩ : PInfo)))) p.2 =
      some ⟨p.1, none⟩ := by
  induction l with
  | nil => cases hp
  | cons q l ih =>
    rw [List.map_cons, List.nodup_cons] at hnd
    rw [List.map_cons, dictGet?_cons]
    rcases List.mem_cons.mp hp with hpe | hp2
    · subst hpe
      rw [if_pos (by simp)]
    · have hq : q.2 ≠ p.2 := by
        intro he
        exact hnd.1 (he ▸ List.mem_map_of_mem (fun y => y.2) hp2)
      rw [if_neg (by simp [hq])]
      exact ih hp2 hnd.2

theorem buildParamsStr_cons (params : List (String × PInfo)) (n : String)
    (ns : List String) (acc : String) :
    buildParamsStr params (n :: ns) acc =
      (dictGet? params n).bind
        (fun info => buildParamsStr params ns (acc ++ generate_param_string info n)) := rfl

theorem buildParamsStr_map (filtered : List (String × String))
    (params : List (String × PInfo)) (acc : String)
    (h : ∀ p ∈ filtered, dictGet? params p.2 = some ⟨p.1, none⟩) :
    buildParamsStr params (filtered.map (fun q => q.2)) acc =
      some (acc ++ concatAll (filtered.map
        (fun q => generate_param_string ⟨q.1, none⟩ q.2))) := by
  induction filtered generalizing acc with
  | nil => simp [buildParamsStr, concatAll]
  | cons q l ih =>
    rw [List.map_cons, buildParamsStr_cons, h q (List.mem_cons_self q l),
      Option.some_bind']
    rw [ih _ (fun p hp => h p (List.mem_cons_of_mem q hp))]
    rw [List.map_cons, concatAll, strAppendAssoc]

theorem length_filter_not_void (pairs : List (String × String)) :
    (pairs.filter (fun p => !(p.1 == "void"))).length =
      pairs.length - (pairs.filter (fun p => p.1 == "void")).length := by
  induction pairs with
  | nil => rfl
  | cons p ps ih =>
    have hle := List.length_filter_le (fun p => p.1 == "void") ps
    by_cases hv : p.1 = "void" <;>
      simp [List.filter_cons, hv, ih] <;> omega

/-- C2: the extracted parameter list pairs each declared name with its
positional declared type, drops exactly the "void"-typed positions,
preserves declaration order, and has length equal to the declared-name
count minus the "void"-typed positions; when the resulting list is empty
— in particular for a member whose only parameter has declared type
"void" and no declared name — the emitted block is the canonical
`\param{void}{}{}` string rather than an empty block or a one-entry
list. -/
theorem claim_C2_parameters (fuel : Nat) (ref_dict : RefDict)
    (pairs : List (String × String))
    (hnd : ((pairs.filter (fun p => !(p.1 == "void"))).map (fun p => p.2)).Nodup) :
    paramLoop (((declMember pairs).findAll "type").drop 1)
        ((declMember pairs).findAll "declname") [] [] =
      some ((pairs.filter (fun p => !(p.1 == "void"))).map
          (fun q => (q.2, (⟨q.1, none⟩ : PInfo))),
        (pairs.filter (fun p => !(p.1 == "void"))).map (fun q => q.2)) ∧
    ((pairs.filter (fun p => !(p.1 == "void"))).map (fun q => q.2)).length =
      pairs.length - (pairs.filter (fun p => p.1 == "void")).length ∧
    parse_detailed_desc fuel (declMember pairs) ref_dict =
      some ("\\todo",
        (if (pairs.filter (fun p => !(p.1 == "void"))) = [] then
          generate_empty_param_string
        else concatAll ((pairs.filter (fun p => !(p.1 == "void"))).map
          (fun q => generate_param_string ⟨q.1, none⟩ q.2))),
        "\\todo") ∧
    parse_detailed_desc fuel voidParamMember ref_dict =
      some ("\\todo", generate_empty_param_string, "\\todo") := by
  have hfold : (pairs.filter (fun p => !(p.1 == "void"))).foldl
      (fun d q => dictInsert d q.2 ⟨q.1, none⟩) [] =
      (pairs.filter (fun p => !(p.1 == "void"))).map
        (fun q => (q.2, (⟨q.1, none⟩ : PInfo))) := by
    have h := foldl_dictInsert_eq_append
      (pairs.filter (fun p => !(p.1 == "void"))) [] hnd (fun p _ => rfl)
    simpa using h
  have hc1 : paramLoop (((declMember pairs).findAll "type").drop 1)
      ((declMember pairs).findAll "declname") [] [] =
      some ((pairs.filter (fun p => !(p.1 == "void"))).map
          (fun q => (q.2, (⟨q.1, none⟩ : PInfo))),
        (pairs.filter (fun p => !(p.1 == "void"))).map (fun q => q.2)) := by
    rw [declMember_findAll_type, declMember_findAll_declname]
    simp only [List.drop_succ_cons, List.drop_zero]
    rw [paramLoop_map, hfold]
    simp
  have hfa_pi : (declMember pairs).findAll "parameteritem" = [] :=
    declMember_findAll_other pairs "parameteritem"
      (by decide) (by decide) (by decide) (by decide)
  have hfa_ss : (declMember pairs).findAll "simplesect" = [] :=
    declMember_findAll_other pairs "simplesect"
      (by decide) (by decide) (by decide) (by decide)
  have hc2 : paramLoop (pairs.map (fun p => Node.elem "type" [] [Node.text p.1]))
      ((declMember pairs).findAll "declname") [] [] =
      some ((pairs.filter (fun p => !(p.1 == "void"))).map
          (fun q => (q.2, (⟨q.1, none⟩ : PInfo))),
        (pairs.filter (fun p => !(p.1 == "void"))).map (fun q => q.2)) := by
    rw [declMember_findAll_declname, paramLoop_map, hfold]
    simp
  refine ⟨hc1, by rw [List.length_map]; exact length_filter_not_void pairs, ?_, ?_⟩
  · by_cases hF : pairs.filter (fun p => !(p.1 == "void")) = []
    · simp [parse_detailed_desc, declMember_findAll_type, hc1, hfa_pi, hfa_ss,
        declMember_find_ddesc, attachDescs, detailsLoop, retScan,
        Node.findAllDirect, Node.children, get_text, Node.stringOf,
        Node.getText, Node.getTextL, pysplit, splitWS, isWS,
        default_return_doc, pystrip, todo_if_empty, hF, hc2]
    · have hbps := buildParamsStr_map (pairs.filter (fun p => !(p.1 == "void")))
        ((pairs.filter (fun p => !(p.1 == "void"))).map
          (fun q => (q.2, (⟨q.1, none⟩ : PInfo)))) ""
        (fun p hp => dictGet?_of_map_nodup _ p hp hnd)
      have hlenne : ((pairs.filter (fun p => !(p.1 == "void"))).map
          (fun q => (q.2, (⟨q.1, none⟩ : PInfo)))).length ≠ 0 := by
        simp [hF]
      simp [parse_detailed_desc, declMember_findAll_type, hc1, hfa_pi, hfa_ss,
        declMember_find_ddesc, attachDescs, detailsLoop, retScan,
        Node.findAllDirect, Node.children, get_text, Node.stringOf,
        Node.getText, Node.getTextL, pysplit, splitWS, isWS,
        default_return_doc, pystrip, todo_if_empty, hF, hlenne, hbps, hc2]
  · rfl

/-- C2 witness: three declared parameters with a "void"-typed middle
position yield a two-entry block in declaration order; the void-only
member yields the canonical empty-parameter block. -/
theorem claim_C2_parameters_witness :
    parse_detailed_desc 0 (declMember [("int", "x"), ("void", "y"), ("seL4_CPtr", "z")]) [] =
      some ("\\todo",
        (if ([("int", "x"), ("void", "y"), ("seL4_CPtr", "z")].filter
            (fun p => !(p.1 == "void"))) = [] then generate_empty_param_string
        else concatAll (([("int", "x"), ("void", "y"), ("seL4_CPtr", "z")].filter
            (fun p => !(p.1 == "void"))).map
          (fun q => generate_param_string ⟨q.1, none⟩ q.2))),
        "\\todo") ∧
    parse_detailed_desc 0 voidParamMember [] =
      some ("\\todo", generate_empty_param_string, "\\todo") :=
  ⟨(claim_C2_parameters 0 [] [("int", "x"), ("void", "y"), ("seL4_CPtr", "z")]
      (by decide)).2.2.1,
   (claim_C2_parameters 0 [] [] (by decide)).2.2.2⟩
